import Mathlib

/-!
Verification development for `conways-game-of-life-tui` (`src/main.rs`).

The program state (`struct App`) and its mutation logic are embedded as pure
Lean definitions.  Conventions of the embedding:

* `Coord = (u16, u16)` becomes `Nat × Nat`.  The only `u16` arithmetic in the
  program that can overflow is `column + 2` inside `App::next_generation`
  (reachable when the reported viewport width is `65535 = u16::MAX`); it is
  modelled with an explicit `% 65536` (release-profile wrapping semantics).
  `row + 1` is also reduced `% 65536` for faithfulness, although it can never
  wrap because scanned rows are `< size.1 ≤ 65535`.  `saturating_sub` on `Nat`
  is ordinary truncated subtraction.
* `generation : usize` and millisecond counts (`u128`) become plain `Nat`:
  overflowing them would need more than `2^64` events inside one process run.
* `speed : f32` becomes `ℚ`.  Every value the program can ever store in
  `speed` is a positive multiple of `1/2`; such values, the literals `0.5`
  and `200.0`, their sums and differences are all exactly representable in
  `f32`, and for `(200.0 / speed).round()` the `f32` quotient rounds to the
  same integer as the exact rational quotient (the quotient is never closer
  to a half-integer boundary than one `f32` ulp without being exactly on it,
  and on the boundary both roundings go up).  So the rational model computes
  exactly the numbers the program computes.
* `SystemTime` becomes a `Nat` millisecond timestamp passed in explicitly
  (`now`); `x.elapsed()` becomes `now - x`.
* `HashSet<Coord>` becomes `Finset Coord` (the program only inserts, removes,
  clears, clones, and tests membership, so iteration order is irrelevant).
* terminal I/O is outside the model: `App::handle_input` is modelled as a
  function of the one event it read, and `App::update` / `next_generation`
  take the polled viewport size `(w, h)` and clock reading as arguments.
-/

namespace Gol

/-- A cell position `(column, row)`; the Rust `type Coord = (u16, u16)`. -/
abbrev Coord := Nat × Nat

/-- The `u16` wrap-around modulus (see the overflow note in the file header). -/
def U16M : Nat := 65536

/-- Columns visited by the neighbor scan of `App::next_generation`:
`(column.saturating_sub(2)..=(column + 2).min(size.0)).step_by(2)`.
The inclusive stepped range `lo..=hi` has `(hi + 2 - lo) / 2` elements
(`0` when `hi < lo`, by truncated subtraction). -/
def neighborCols (w column : Nat) : List Nat :=
  List.range' (column - 2) ((min ((column + 2) % U16M) w + 2 - (column - 2)) / 2) 2

/-- Rows visited by the neighbor scan of `App::next_generation`:
`row.saturating_sub(1)..=(row + 1).min(size.1)`. -/
def neighborRows (h row : Nat) : List Nat :=
  List.range' (row - 1) (min ((row + 1) % U16M) h + 1 - (row - 1)) 1

/-- All coordinates visited by the two nested neighbor loops of
`App::next_generation` for the cell `c` (the cell itself included;
the loop body skips it before testing membership). -/
def neighborQueries (w h : Nat) (c : Coord) : List Coord :=
  neighborCols w c.1 ×ˢ neighborRows h c.2

/-- The `neighbor_count` computed by `App::next_generation` for the cell `c`:
the number of visited coordinates that differ from `c` and are in
`alive_cells`.  (The visited list has no duplicates, so counting list
entries is the same as counting distinct coordinates.) -/
def neighborCount (w h : Nat) (alive : Finset Coord) (c : Coord) : Nat :=
  ((neighborQueries w h c).filter fun p => decide (p ≠ c) && decide (p ∈ alive)).length

/-- Columns visited by the outer scan of `App::next_generation`:
`(0..size.0).step_by(2)`. -/
def scanCols (w : Nat) : List Nat :=
  List.range' 0 ((w + 1) / 2) 2

/-- All cell positions scanned by `App::next_generation`
(`column` stepping by 2 below `size.0`, `row` below `size.1`). -/
def scanList (w h : Nat) : List Coord :=
  scanCols w ×ˢ List.range h

/-- The death test of `App::next_generation`:
`alive_cells.contains(&coord) && (neighbor_count < 2 || neighbor_count > 3)`. -/
def isDying (w h : Nat) (alive : Finset Coord) (c : Coord) : Bool :=
  decide (c ∈ alive) &&
    (decide (neighborCount w h alive c < 2) || decide (3 < neighborCount w h alive c))

/-- The `removed_points` list collected by `App::next_generation`. -/
def removedPoints (w h : Nat) (alive : Finset Coord) : List Coord :=
  (scanList w h).filter (isDying w h alive)

/-- The `new_points` list collected by `App::next_generation`: positions that
did not enter the `removed_points` branch and have `neighbor_count == 3`. -/
def newPoints (w h : Nat) (alive : Finset Coord) : List Coord :=
  (scanList w h).filter fun c =>
    !isDying w h alive c && decide (neighborCount w h alive c = 3)

/-- `App::next_generation` on viewport `(w, h)`: first every coordinate of
`removed_points` is removed (`retain(|c| *c != coord)` deletes exactly that
coordinate), then every coordinate of `new_points` is inserted. -/
def nextGeneration (w h : Nat) (alive : Finset Coord) : Finset Coord :=
  (newPoints w h alive).foldl (fun s c => insert c s)
    ((removedPoints w h alive).foldl (fun s c => s.erase c) alive)

/-- Modelled from the spec: `a` is one of the 8 logical neighbors of `c`
(column offset in `\x7b-2, 0, +2\x7d`, row offset in `\x7b-1, 0, +1\x7d`, not the cell
itself), written without subtraction so that it is meaningful on `Nat`. -/
def isLogicalNeighbor (c a : Coord) : Prop :=
  (a.1 = c.1 + 2 ∨ a.1 + 2 = c.1 ∨ a.1 = c.1) ∧
    (a.2 = c.2 + 1 ∨ a.2 + 1 = c.2 ∨ a.2 = c.2) ∧ a ≠ c

instance (c a : Coord) : Decidable (isLogicalNeighbor c a) :=
  inferInstanceAs (Decidable (_ ∧ _ ∧ _))

/-- Modelled from the spec: the number of live cells among the 8 logical
neighbors of `c`, counted in the pre-update state `alive` only. -/
def logicalNeighborCount (alive : Finset Coord) (c : Coord) : Nat :=
  (alive.filter fun a => isLogicalNeighbor c a).card

/-- Modelled from the spec: the logical cell positions of a `(w, h)` viewport —
even columns strictly below `w`, rows strictly below `h`. -/
def lifeDomain (w h : Nat) : Finset Coord :=
  ((Finset.range w).filter fun col => col % 2 = 0) ×ˢ Finset.range h

/-- Modelled from the spec: one simultaneous application of the standard Life
rule over the viewport cells — a live cell survives exactly with logical
neighbor count 2 or 3, a dead cell is born exactly with count 3, all counts
taken against the pre-update state. -/
def lifeStep (w h : Nat) (alive : Finset Coord) : Finset Coord :=
  (lifeDomain w h).filter fun c =>
    (c ∈ alive ∧ (logicalNeighborCount alive c = 2 ∨ logicalNeighborCount alive c = 3)) ∨
      (c ∉ alive ∧ logicalNeighborCount alive c = 3)

/-! ### Membership characterizations of the generation scan -/

lemma mem_scanCols {w x : Nat} : x ∈ scanCols w ↔ x % 2 = 0 ∧ x < w := by
  unfold scanCols
  rw [List.mem_range']
  constructor
  · rintro ⟨i, hi, rfl⟩; omega
  · intro hx; exact ⟨x / 2, by omega, by omega⟩

lemma mem_scanList {w h : Nat} {c : Coord} :
    c ∈ scanList w h ↔ c.1 % 2 = 0 ∧ c.1 < w ∧ c.2 < h := by
  obtain ⟨x, y⟩ := c
  rw [scanList, List.mem_product, mem_scanCols, List.mem_range]
  tauto

lemma mem_neighborCols {w column x : Nat} (hcol : column + 2 < U16M) :
    x ∈ neighborCols w column ↔
      x % 2 = (column - 2) % 2 ∧ column - 2 ≤ x ∧ x ≤ min (column + 2) w := by
  unfold neighborCols
  rw [Nat.mod_eq_of_lt hcol, List.mem_range']
  rcases Nat.le_total (column + 2) w with hmin | hmin
  · rw [Nat.min_eq_left hmin]
    constructor
    · rintro ⟨i, hi, rfl⟩; constructor; omega; omega
    · intro hx; exact ⟨(x - (column - 2)) / 2, by omega, by omega⟩
  · rw [Nat.min_eq_right hmin]
    constructor
    · rintro ⟨i, hi, rfl⟩; constructor; omega; omega
    · intro hx; exact ⟨(x - (column - 2)) / 2, by omega, by omega⟩

lemma mem_neighborRows {h row y : Nat} (hrow : row + 1 < U16M) :
    y ∈ neighborRows h row ↔ row - 1 ≤ y ∧ y ≤ min (row + 1) h := by
  unfold neighborRows
  rw [Nat.mod_eq_of_lt hrow, List.mem_range']
  rcases Nat.le_total (row + 1) h with hmin | hmin
  · rw [Nat.min_eq_left hmin]
    constructor
    · rintro ⟨i, hi, rfl⟩; omega
    · intro hy; exact ⟨y - (row - 1), by omega, by omega⟩
  · rw [Nat.min_eq_right hmin]
    constructor
    · rintro ⟨i, hi, rfl⟩; omega
    · intro hy; exact ⟨y - (row - 1), by omega, by omega⟩

lemma mem_neighborQueries {w h : Nat} {c p : Coord}
    (hcol : c.1 + 2 < U16M) (hrow : c.2 + 1 < U16M) :
    p ∈ neighborQueries w h c ↔
      (p.1 % 2 = (c.1 - 2) % 2 ∧ c.1 - 2 ≤ p.1 ∧ p.1 ≤ min (c.1 + 2) w) ∧
        (c.2 - 1 ≤ p.2 ∧ p.2 ≤ min (c.2 + 1) h) := by
  obtain ⟨x, y⟩ := p
  rw [neighborQueries, List.mem_product, mem_neighborCols hcol, mem_neighborRows hrow]

lemma nodup_neighborQueries (w h : Nat) (c : Coord) : (neighborQueries w h c).Nodup :=
  (List.nodup_range' _ _ 2 (by omega)).product (List.nodup_range' _ _ 1 (by omega))

/-- The two scan phases of `next_generation` in set form: a coordinate is in
the successor set exactly if it survives the removal pass or is inserted. -/
lemma mem_foldl_erase (l : List Coord) (s : Finset Coord) (c : Coord) :
    c ∈ l.foldl (fun t x => t.erase x) s ↔ c ∈ s ∧ c ∉ l := by
  induction l generalizing s with
  | nil => simp
  | cons x xs ih =>
    rw [List.foldl_cons, ih, Finset.mem_erase, List.mem_cons]
    tauto

lemma mem_foldl_insert (l : List Coord) (s : Finset Coord) (c : Coord) :
    c ∈ l.foldl (fun t x => insert x t) s ↔ c ∈ s ∨ c ∈ l := by
  induction l generalizing s with
  | nil => simp
  | cons x xs ih =>
    rw [List.foldl_cons, ih, Finset.mem_insert, List.mem_cons]
    tauto

lemma mem_removedPoints {w h : Nat} {alive : Finset Coord} {c : Coord} :
    c ∈ removedPoints w h alive ↔
      (c.1 % 2 = 0 ∧ c.1 < w ∧ c.2 < h) ∧ c ∈ alive ∧
        (neighborCount w h alive c < 2 ∨ 3 < neighborCount w h alive c) := by
  rw [removedPoints, List.mem_filter, mem_scanList]
  simp [isDying]

lemma mem_newPoints {w h : Nat} {alive : Finset Coord} {c : Coord} :
    c ∈ newPoints w h alive ↔
      (c.1 % 2 = 0 ∧ c.1 < w ∧ c.2 < h) ∧
        ¬(c ∈ alive ∧ (neighborCount w h alive c < 2 ∨ 3 < neighborCount w h alive c)) ∧
        neighborCount w h alive c = 3 := by
  rw [newPoints, List.mem_filter, mem_scanList]
  simp [isDying, not_or]
  tauto

lemma mem_nextGeneration {w h : Nat} {alive : Finset Coord} {c : Coord} :
    c ∈ nextGeneration w h alive ↔
      (c ∈ alive ∧ c ∉ removedPoints w h alive) ∨ c ∈ newPoints w h alive := by
  rw [nextGeneration, mem_foldl_insert, mem_foldl_erase]

lemma mem_lifeDomain {w h : Nat} {c : Coord} :
    c ∈ lifeDomain w h ↔ c.1 % 2 = 0 ∧ c.1 < w ∧ c.2 < h := by
  obtain ⟨x, y⟩ := c
  rw [lifeDomain, Finset.mem_product]
  simp only [Finset.mem_filter, Finset.mem_range]
  tauto

lemma mem_lifeStep {w h : Nat} {alive : Finset Coord} {c : Coord} :
    c ∈ lifeStep w h alive ↔
      (c.1 % 2 = 0 ∧ c.1 < w ∧ c.2 < h) ∧
        ((c ∈ alive ∧ (logicalNeighborCount alive c = 2 ∨ logicalNeighborCount alive c = 3)) ∨
          (c ∉ alive ∧ logicalNeighborCount alive c = 3)) := by
  rw [lifeStep, Finset.mem_filter, mem_lifeDomain]

/-- Key counting lemma: when `column + 2` cannot wrap (and the live set sits
inside the viewport), the scanned `neighbor_count` of `next_generation`
is exactly the logical 8-neighborhood count of the spec. -/
lemma neighborCount_eq_logical {w h : Nat} {alive : Finset Coord} {c : Coord}
    (hcol : c.1 + 2 < U16M) (hrow : c.2 + 1 < U16M) (hceven : c.1 % 2 = 0)
    (halive : ∀ a ∈ alive, a.1 % 2 = 0 ∧ a.1 < w ∧ a.2 < h) :
    neighborCount w h alive c = logicalNeighborCount alive c := by
  rw [neighborCount, logicalNeighborCount,
    ← List.toFinset_card_of_nodup ((nodup_neighborQueries w h c).filter _)]
  congr 1
  ext a
  rw [List.mem_toFinset, List.mem_filter, mem_neighborQueries hcol hrow, Finset.mem_filter]
  simp only [Bool.and_eq_true, decide_eq_true_eq]
  unfold isLogicalNeighbor
  have hm1 : min (c.1 + 2) w ≤ c.1 + 2 ∧ min (c.1 + 2) w ≤ w ∧
      (min (c.1 + 2) w = c.1 + 2 ∨ min (c.1 + 2) w = w) := by
    refine ⟨Nat.min_le_left _ _, Nat.min_le_right _ _, ?_⟩
    rcases Nat.le_total (c.1 + 2) w with hle | hle
    · exact Or.inl (Nat.min_eq_left hle)
    · exact Or.inr (Nat.min_eq_right hle)
  have hm2 : min (c.2 + 1) h ≤ c.2 + 1 ∧ min (c.2 + 1) h ≤ h ∧
      (min (c.2 + 1) h = c.2 + 1 ∨ min (c.2 + 1) h = h) := by
    refine ⟨Nat.min_le_left _ _, Nat.min_le_right _ _, ?_⟩
    rcases Nat.le_total (c.2 + 1) h with hle | hle
    · exact Or.inl (Nat.min_eq_left hle)
    · exact Or.inr (Nat.min_eq_right hle)
  obtain ⟨hm1a, hm1b, hm1c⟩ := hm1
  obtain ⟨hm2a, hm2b, hm2c⟩ := hm2
  constructor
  · rintro ⟨⟨⟨hpar, hlo, hhi⟩, hrlo, hrhi⟩, hne, ha⟩
    obtain ⟨hae, haw, hah⟩ := halive a ha
    exact ⟨ha, by omega, by omega, hne⟩
  · rintro ⟨ha, hcols, hrows, hne⟩
    obtain ⟨hae, haw, hah⟩ := halive a ha
    exact ⟨⟨⟨by omega, by omega, by omega⟩, by omega, by omega⟩, hne, ha⟩

/-! ### Claims C1, C2, C9 about the Generation Engine -/

/-- C1 (amended: the viewport width must be at most 65534).  For every
viewport size — `(w, h)` a pair of `u16` values, `w ≠ 65535` — and every set
of live cells at even columns inside the viewport, one `next_generation`
pass produces exactly the simultaneous standard Life rule: live cells with
pre-update neighbor count outside `[2, 3]` die, dead cells with exactly 3
pre-update neighbors are born, all other cells keep their state.  (At
`w = 65535`, `column + 2` overflows `u16` for the scanned column 65534 and
the rule is violated; see `c1_width_65535_counterexample`.) -/
theorem c1_next_generation_is_simultaneous_life_rule (w h : Nat) (alive : Finset Coord)
    (hw : w ≤ 65534) (hh : h ≤ 65535)
    (halive : ∀ a ∈ alive, a.1 % 2 = 0 ∧ a.1 < w ∧ a.2 < h) :
    nextGeneration w h alive = lifeStep w h alive := by
  ext c
  rw [mem_nextGeneration, mem_lifeStep, mem_removedPoints, mem_newPoints]
  by_cases hd : c.1 % 2 = 0 ∧ c.1 < w ∧ c.2 < h
  · have hcol : c.1 + 2 < U16M := by unfold U16M; omega
    have hrow : c.2 + 1 < U16M := by unfold U16M; omega
    rw [neighborCount_eq_logical hcol hrow hd.1 halive]
    by_cases ha : c ∈ alive
    · simp only [hd, ha, true_and, and_true, not_true_eq_false, false_and, or_false,
        not_false_eq_true]
      omega
    · simp only [hd, ha, true_and, and_true, false_and, false_or, not_false_eq_true,
        not_true_eq_false, true_iff, iff_true]
  · have ha : c ∉ alive := fun hc => hd (halive c hc)
    simp [hd, ha]

/-- Witness for C1: the engine equals the spec rule on a vertical blinker in
a 6-by-3 viewport. -/
theorem c1_next_generation_is_simultaneous_life_rule_witness :
    ((6 : Nat) ≤ 65534 ∧ (3 : Nat) ≤ 65535 ∧
      (∀ a ∈ ({(2, 0), (2, 1), (2, 2)} : Finset Coord), a.1 % 2 = 0 ∧ a.1 < 6 ∧ a.2 < 3)) ∧
      nextGeneration 6 3 {(2, 0), (2, 1), (2, 2)} = lifeStep 6 3 {(2, 0), (2, 1), (2, 2)} :=
  ⟨⟨by decide, by decide, by decide⟩,
    c1_next_generation_is_simultaneous_life_rule 6 3 _ (by decide) (by decide) (by decide)⟩

/-- The live set exhibiting the `u16` overflow of the neighbor scan: a
vertical triple at column `65534 = u16::MAX - 1`. -/
def wrapAlive : Finset Coord := {(65534, 0), (65534, 1), (65534, 2)}

/-- Counterexample to C1 as stated: on a viewport of width `65535 = u16::MAX`
(height 3) the premises of the claim hold — all live cells sit at even
columns inside the viewport — yet the generation advance differs from the
simultaneous Life rule: `column + 2` wraps to `0` for the scanned column
`65534`, the neighbor range becomes empty, and the live cell `(65534, 1)`
with two live logical neighbors is removed instead of surviving. -/
theorem c1_width_65535_counterexample :
    (∀ a ∈ wrapAlive, a.1 % 2 = 0 ∧ a.1 < 65535 ∧ a.2 < 3) ∧
      nextGeneration 65535 3 wrapAlive ≠ lifeStep 65535 3 wrapAlive := by
  refine ⟨by decide, fun heq => ?_⟩
  rw [Finset.ext_iff] at heq
  have hmem := heq (65534, 1)
  rw [mem_nextGeneration, mem_lifeStep] at hmem
  have hL := hmem.mpr ⟨by decide, Or.inl ⟨by decide, Or.inl (by decide)⟩⟩
  rcases hL with ⟨-, hnr⟩ | hnew
  · exact hnr (mem_removedPoints.mpr ⟨by decide, by decide, Or.inl (by decide)⟩)
  · have h3 := (mem_newPoints.mp hnew).2.2
    exact absurd h3 (by decide)

/-- C2: neighbor coordinates are clamped, never wrapped to the opposite edge.
For every viewport and every in-viewport live-cell set containing `(0, 0)`,
the neighbor count the engine computes for the corner cell `(0, 0)` is taken
only over its in-bounds neighbors `(0, 1)`, `(2, 0)`, `(2, 1)` (saturating
subtraction stops at 0; nothing at the opposite edge is consulted). -/
theorem c2_corner_cell_counts_only_inbounds_neighbors (w h : Nat) (alive : Finset Coord)
    (halive : ∀ a ∈ alive, a.1 % 2 = 0 ∧ a.1 < w ∧ a.2 < h)
    (_hlive : ((0, 0) : Coord) ∈ alive) :
    neighborCount w h alive (0, 0) =
      (if ((0, 1) : Coord) ∈ alive then 1 else 0) +
        (if ((2, 0) : Coord) ∈ alive then 1 else 0) +
        (if ((2, 1) : Coord) ∈ alive then 1 else 0) := by
  rw [neighborCount_eq_logical (by decide) (by decide) (by decide) halive,
    logicalNeighborCount]
  rw [Finset.filter_congr (q := fun a =>
      a = ((0, 1) : Coord) ∨ a = ((2, 0) : Coord) ∨ a = ((2, 1) : Coord))
    (fun a _ => by
      obtain ⟨x, y⟩ := a
      simp only [isLogicalNeighbor, Prod.ext_iff, Prod.mk.injEq, ne_eq, not_and]
      constructor
      · rintro ⟨hx, hy, hne⟩
        omega
      · rintro (⟨hx, hy⟩ | ⟨hx, hy⟩ | ⟨hx, hy⟩) <;>
          exact ⟨by omega, by omega, by intro h1 h2; omega⟩)]
  rw [Finset.filter_or, Finset.filter_or, Finset.filter_eq', Finset.filter_eq',
    Finset.filter_eq']
  split_ifs <;> decide

/-- Witness for C2: a corner cell with live neighbors at `(0, 1)` and `(2, 1)`
in a 4-by-2 viewport. -/
theorem c2_corner_cell_counts_only_inbounds_neighbors_witness :
    ((∀ a ∈ ({(0, 0), (0, 1), (2, 1)} : Finset Coord), a.1 % 2 = 0 ∧ a.1 < 4 ∧ a.2 < 2) ∧
        ((0, 0) : Coord) ∈ ({(0, 0), (0, 1), (2, 1)} : Finset Coord)) ∧
      neighborCount 4 2 {(0, 0), (0, 1), (2, 1)} (0, 0) =
        (if ((0, 1) : Coord) ∈ ({(0, 0), (0, 1), (2, 1)} : Finset Coord) then 1 else 0) +
          (if ((2, 0) : Coord) ∈ ({(0, 0), (0, 1), (2, 1)} : Finset Coord) then 1 else 0) +
          (if ((2, 1) : Coord) ∈ ({(0, 0), (0, 1), (2, 1)} : Finset Coord) then 1 else 0) :=
  ⟨⟨by decide, by decide⟩,
    c2_corner_cell_counts_only_inbounds_neighbors 4 2 _ (by decide) (by decide)⟩

/-- C9: a generation advance never inserts an out-of-viewport coordinate:
every member of the successor set was already alive or is a scanned position
(even column strictly below the width, row strictly below the height).  The
neighbor scan may consult coordinates at `column == w` or `row == h`, but
those are only membership tests; they never enter the set. -/
theorem c9_generation_never_inserts_outside_viewport (w h : Nat) (alive : Finset Coord)
    (c : Coord) (hc : c ∈ nextGeneration w h alive) :
    c ∈ alive ∨ (c.1 % 2 = 0 ∧ c.1 < w ∧ c.2 < h) := by
  rcases mem_nextGeneration.mp hc with ⟨ha, -⟩ | hnew
  · exact Or.inl ha
  · exact Or.inr (mem_newPoints.mp hnew).1

/-- Witness for C9: the newly born cell `(2, 1)` in a 4-by-2 viewport is
inside the viewport at an even column. -/
theorem c9_generation_never_inserts_outside_viewport_witness :
    ((2, 1) : Coord) ∈ nextGeneration 4 2 {(0, 0), (0, 1), (2, 0)} ∧
      (((2, 1) : Coord) ∈ ({(0, 0), (0, 1), (2, 0)} : Finset Coord) ∨
        (2 % 2 = 0 ∧ 2 < 4 ∧ 1 < 2)) :=
  ⟨by decide,
    c9_generation_never_inserts_outside_viewport 4 2 {(0, 0), (0, 1), (2, 0)} (2, 1)
      (by decide)⟩

/-! ### The application state and its event handlers -/

/-- The `struct App` of the source.  `SystemTime` fields are millisecond
timestamps; `speed : f32` is an exact rational (see the file header). -/
structure App where
  alive_cells : Finset Coord
  save : Finset Coord
  is_playing : Bool
  speed : ℚ
  last_updated : Nat
  generation : Nat
  current_msg : Option String
  msg_display_start : Nat
deriving DecidableEq

/-- `App::new()`, with both `SystemTime::now()` reads returning `t`. -/
def App.new (t : Nat) : App :=
  { alive_cells := ∅, save := ∅, is_playing := false, speed := 1,
    last_updated := t, generation := 0, current_msg := none, msg_display_start := t }

/-- The `crossterm` mouse buttons. -/
inductive MouseButton
  | left
  | right
  | middle
deriving DecidableEq

/-- The `crossterm` mouse event kinds. -/
inductive MouseEventKind
  | down (b : MouseButton)
  | up (b : MouseButton)
  | drag (b : MouseButton)
  | moved
  | scrollDown
  | scrollUp
  | scrollLeft
  | scrollRight
deriving DecidableEq

/-- The key codes distinguished by `handle_input`: printable characters, the
two arrow keys it reacts to, and a stand-in for every other key. -/
inductive KeyCode
  | char (c : Char)
  | up
  | down
  | otherKey
deriving DecidableEq

/-- One `crossterm` event as consumed by `handle_input`. -/
inductive Event
  | key (k : KeyCode)
  | mouse (kind : MouseEventKind) (column row : Nat)
  | resize (w h : Nat)
  | otherEvent
deriving DecidableEq

/-- `fn to_point_coord(row, column)`: normalize an odd click column down to
the nearest even column.  (`column - 1` cannot underflow: it only runs when
the column is odd, hence at least 1.) -/
def to_point_coord (row column : Nat) : Coord :=
  if column % 2 ≠ 0 then (column - 1, row) else (column, row)

/-- The event-dispatch body of `App::handle_input`, given the one event the
poll returned.  `none` models `AppAction::Quit`; otherwise the new state and
the `need_redraw` flag of `AppAction::NeedRedraw` are returned.  `now` is
the `SystemTime::now()` read by the `'s'`/`'l'` handlers. -/
def handleEvent (s : App) (e : Event) (now : Nat) : Option (App × Bool) :=
  match e with
  | .key (.char 'q') => none
  | .key (.char ' ') => some ({ s with is_playing := !s.is_playing }, true)
  | .key (.char 'r') => some ({ s with is_playing := false, generation := 0 }, true)
  | .key (.char 'c') =>
      some ({ s with is_playing := false, alive_cells := ∅, generation := 0 }, true)
  | .key (.char 's') =>
      some ({ s with
                save := s.alive_cells
                current_msg := some "Current cells saved!"
                msg_display_start := now },
            true)
  | .key (.char 'l') =>
      some ({ s with
                alive_cells := s.save
                current_msg := some "Last save loaded!"
                msg_display_start := now },
            true)
  | .key .up => some ({ s with speed := s.speed + 1/2 }, true)
  | .key .down =>
      if 1/2 < s.speed then some ({ s with speed := s.speed - 1/2 }, true)
      else some (s, false)
  | .key _ => some (s, false)
  | .mouse kind column row =>
      if s.is_playing then some (s, false)
      else
        match kind with
        | .down .left | .drag .left =>
            some ({ s with alive_cells := insert (to_point_coord row column) s.alive_cells },
                  true)
        | .down .right | .drag .right =>
            some ({ s with alive_cells := s.alive_cells.erase (to_point_coord row column) },
                  true)
        | _ => some (s, false)
  | .resize _ _ => some (s, true)
  | .otherEvent => some (s, false)

/-- The state part of a non-quitting `handleEvent` step. -/
def stepState (s : App) (e : Event) (now : Nat) : App :=
  match handleEvent s e now with
  | some (s', _) => s'
  | none => s

/-- The tick gate of `App::update`:
`last_updated.elapsed() > (UPDATE_MS as f32 / speed).round() as u128`.
`(200 / speed).round()` is the exact rational rounding (half away from zero
on the positive values that occur, which equals `round` on `ℚ`). -/
def tickInterval (speed : ℚ) : Nat :=
  (round ((200 : ℚ) / speed)).toNat

/-- The tick condition of `App::update` at clock reading `now`. -/
def tickDue (s : App) (now : Nat) : Prop :=
  s.is_playing = true ∧ tickInterval s.speed < now - s.last_updated

instance (s : App) (now : Nat) : Decidable (tickDue s now) :=
  inferInstanceAs (Decidable (_ ∧ _))

/-- `App::update` at clock reading `now` with viewport `(w, h)`: advance a
generation when playing and the tick interval has elapsed, then expire the
status message once it has been shown for more than `MSG_DISPLAY_MS = 1000`
milliseconds.  Returns the new state and the `need_redraw` flag. -/
def update (s : App) (w h now : Nat) : App × Bool :=
  let s1 := if tickDue s now then
      { s with
          alive_cells := nextGeneration w h s.alive_cells
          generation := s.generation + 1
          last_updated := now }
    else s
  if 1000 < now - s1.msg_display_start ∧ s1.current_msg.isSome = true then
    ({ s1 with current_msg := none }, true)
  else (s1, decide (tickDue s now))

/-! ### Mutation sequences and reachable states -/

/-- One `alive_cells` mutation of the kinds the save/restore claim ranges
over: a pointer add, a pointer remove, the `'c'` clear, or a generation
advance — each performed through the program's own handler. -/
inductive Mut
  | add (column row now : Nat)
  | removeCell (column row now : Nat)
  | clearAll (now : Nat)
  | advance (w h now : Nat)

/-- Apply one mutation through the corresponding handler code path. -/
def applyMut (s : App) (m : Mut) : App :=
  match m with
  | .add column row now => stepState s (.mouse (.down .left) column row) now
  | .removeCell column row now => stepState s (.mouse (.down .right) column row) now
  | .clearAll now => stepState s (.key (.char 'c')) now
  | .advance w h now => (update s w h now).1

/-- The states reachable from startup through the program's own entry
points: `App::new`, any `handle_input` event dispatch that did not quit, and
any `App::update` call. -/
inductive Reachable : App → Prop
  | init (t : Nat) : Reachable (App.new t)
  | input {s s' : App} {e : Event} {now : Nat} {b : Bool} :
      Reachable s → handleEvent s e now = some (s', b) → Reachable s'
  | tick {s : App} (w h now : Nat) : Reachable s → Reachable (update s w h now).1

/-! ### Claims C3 to C8 and C10 about the event loop state machine -/

/-- `App::update` never touches the `save` slot. -/
lemma update_save (s : App) (w h now : Nat) : (update s w h now).1.save = s.save := by
  unfold update
  by_cases h1 : tickDue s now <;> simp only [h1, if_true, if_false, ite_true, ite_false] <;>
    split <;> rfl

/-- No mutation of `Mut` ever touches the `save` slot. -/
lemma applyMut_save (s : App) (m : Mut) : (applyMut s m).save = s.save := by
  cases m with
  | add column row now =>
    by_cases hp : s.is_playing <;> simp [applyMut, stepState, handleEvent, hp]
  | removeCell column row now =>
    by_cases hp : s.is_playing <;> simp [applyMut, stepState, handleEvent, hp]
  | clearAll now => rfl
  | advance w h now => exact update_save s w h now

lemma foldl_applyMut_save (ms : List Mut) (s : App) :
    (ms.foldl applyMut s).save = s.save := by
  induction ms generalizing s with
  | nil => rfl
  | cons m ms ih => rw [List.foldl_cons, ih, applyMut_save]

/-- C3: save/restore round trip.  Saving with the `'s'` handler, then any
sequence of `alive_cells` mutations (pointer adds and removes, the `'c'`
clear, generation advances), then restoring with the `'l'` handler leaves
`alive_cells` exactly equal to the set captured at save time: the restore
overwrites rather than merges (also with the empty set), and no intervening
mutation ever changes the saved copy. -/
theorem c3_save_restore_round_trip (s : App) (nowS nowL : Nat) (ms : List Mut) :
    (stepState (ms.foldl applyMut (stepState s (.key (.char 's')) nowS))
        (.key (.char 'l')) nowL).alive_cells = s.alive_cells ∧
      (ms.foldl applyMut (stepState s (.key (.char 's')) nowS)).save = s.alive_cells := by
  have hsave : (ms.foldl applyMut (stepState s (.key (.char 's')) nowS)).save =
      s.alive_cells := by
    rw [foldl_applyMut_save]; rfl
  exact ⟨by rw [show ∀ t : App, ∀ nw : Nat,
      (stepState t (.key (.char 'l')) nw).alive_cells = t.save from fun t nw => rfl, hsave],
    hsave⟩

/-- C4: pause gating.  While `is_playing` is `true`, every pointer event — any
kind, any button, any coordinate — leaves the entire state unchanged and does
not even request a redraw; pointer edits are accepted only while paused. -/
theorem c4_pointer_ignored_while_playing (s : App) (kind : MouseEventKind)
    (column row now : Nat) (hp : s.is_playing = true) :
    handleEvent s (.mouse kind column row) now = some (s, false) := by
  simp [handleEvent, hp]

/-- Witness for C4: a left-button press at `(3, 4)` while playing returns the
state unchanged with no redraw. -/
theorem c4_pointer_ignored_while_playing_witness :
    handleEvent { App.new 0 with is_playing := true } (.mouse (.down .left) 3 4) 0 =
      some ({ App.new 0 with is_playing := true }, false) :=
  c4_pointer_ignored_while_playing { App.new 0 with is_playing := true } (.down .left) 3 4 0 rfl

/-- C6: clear versus reset.  The `'c'` handler empties `alive_cells` and
zeroes `generation`; the `'r'` handler zeroes `generation` but leaves
`alive_cells` exactly unchanged; both force `is_playing := false`, and
neither touches the saved snapshot or the speed. -/
theorem c6_clear_vs_reset (s : App) (now : Nat) :
    ((stepState s (.key (.char 'c')) now).alive_cells = ∅ ∧
      (stepState s (.key (.char 'c')) now).generation = 0 ∧
      (stepState s (.key (.char 'c')) now).is_playing = false ∧
      (stepState s (.key (.char 'c')) now).save = s.save ∧
      (stepState s (.key (.char 'c')) now).speed = s.speed) ∧
    ((stepState s (.key (.char 'r')) now).alive_cells = s.alive_cells ∧
      (stepState s (.key (.char 'r')) now).generation = 0 ∧
      (stepState s (.key (.char 'r')) now).is_playing = false ∧
      (stepState s (.key (.char 'r')) now).save = s.save ∧
      (stepState s (.key (.char 'r')) now).speed = s.speed) :=
  ⟨⟨rfl, rfl, rfl, rfl, rfl⟩, ⟨rfl, rfl, rfl, rfl, rfl⟩⟩

/-- The down-arrow handler (`decrease_speed`), as a state transformer. -/
def decreaseSpeedState (s : App) : App := stepState s (.key .down) 0

/-- C5: speed floor.  The down-arrow handler subtracts `0.5` from `speed`
exactly when `speed > 0.5` beforehand and otherwise changes nothing at all;
consequently, starting from the default speed `1.0`, iterating it yields
`1.0, 0.5, 0.5, 0.5, ...` and never any value below `0.5`.  (All values
involved are exactly representable in `f32`, so the rational model computes
the very numbers the program computes.) -/
theorem c5_speed_floor (s : App) (n : Nat) :
    (1/2 < s.speed → (decreaseSpeedState s).speed = s.speed - 1/2) ∧
      (¬ 1/2 < s.speed → decreaseSpeedState s = s) ∧
      (s.speed = 1 → (decreaseSpeedState^[n] s).speed = if n = 0 then 1 else 1/2) := by
  refine ⟨fun hgt => ?_, fun hle => ?_, fun hone => ?_⟩
  · unfold decreaseSpeedState stepState handleEvent
    rw [if_pos hgt]
  · unfold decreaseSpeedState stepState handleEvent
    rw [if_neg hle]
  · have hfix : ∀ (k : Nat) (t : App), t.speed = 1/2 →
        (decreaseSpeedState^[k] t).speed = 1/2 := by
      intro k
      induction k with
      | zero => intro t ht; simpa using ht
      | succ j ih =>
        intro t ht
        have hnoop : decreaseSpeedState t = t := by
          unfold decreaseSpeedState stepState handleEvent
          rw [if_neg (show ¬ 1/2 < t.speed by rw [ht]; exact lt_irrefl _)]
        rw [Function.iterate_succ_apply, hnoop]
        exact ih t ht
    cases n with
    | zero => simpa using hone
    | succ m =>
      have hstep : (decreaseSpeedState s).speed = 1/2 := by
        have hgt : 1/2 < s.speed := by rw [hone]; norm_num
        unfold decreaseSpeedState stepState handleEvent
        rw [if_pos hgt]
        show s.speed - 1/2 = 1/2
        rw [hone]
        norm_num
      rw [Function.iterate_succ_apply, if_neg (Nat.succ_ne_zero m)]
      exact hfix m (decreaseSpeedState s) hstep

/-- Witness for C5: three presses of the down arrow from the initial state
(speed `1.0`) leave the speed at the floor value `0.5`. -/
theorem c5_speed_floor_witness :
    (decreaseSpeedState^[3] (App.new 0)).speed = if 3 = 0 then 1 else 1/2 :=
  (c5_speed_floor (App.new 0) 3).2.2 rfl

/-- C7: the tick gate of `App::update`.  The three tick effects — the
Generation Engine applied once to `alive_cells`, `generation` incremented by
exactly 1, `last_updated` reset to the current time — happen if and only if
the state is playing and the elapsed time strictly exceeds
`(200 ms / speed)` rounded to the nearest millisecond; otherwise those three
fields are all left unchanged. -/
theorem c7_tick_gate (s : App) (w h now : Nat) :
    (((update s w h now).1.generation = s.generation + 1 ∧
        (update s w h now).1.alive_cells = nextGeneration w h s.alive_cells ∧
        (update s w h now).1.last_updated = now) ↔ tickDue s now) ∧
      (¬ tickDue s now →
        (update s w h now).1.alive_cells = s.alive_cells ∧
        (update s w h now).1.generation = s.generation ∧
        (update s w h now).1.last_updated = s.last_updated) := by
  by_cases h1 : tickDue s now
  · constructor
    · unfold update
      simp only [h1, if_true, iff_true]
      split <;> exact ⟨rfl, rfl, rfl⟩
    · exact fun hn => absurd h1 hn
  · constructor
    · unfold update
      simp only [h1, if_false, iff_false]
      split <;> rintro ⟨hgen, -, -⟩ <;> simp at hgen
    · intro _
      unfold update
      simp only [h1, if_false]
      split <;> exact ⟨rfl, rfl, rfl⟩

/-- Witness for C7: in a paused state the tick condition fails, so one update
leaves `alive_cells`, `generation` and `last_updated` unchanged. -/
theorem c7_tick_gate_witness :
    (update (App.new 0) 4 4 300).1.alive_cells = (App.new 0).alive_cells ∧
      (update (App.new 0) 4 4 300).1.generation = (App.new 0).generation ∧
      (update (App.new 0) 4 4 300).1.last_updated = (App.new 0).last_updated :=
  (c7_tick_gate (App.new 0) 4 4 300).2 (by decide)

/-- How `App::update` transforms the message fields: the message is cleared
exactly when one is set and has been displayed for strictly more than
1000 ms, and that clearing raises the redraw flag. -/
lemma update_msg (s : App) (w h now : Nat) :
    (update s w h now).1.current_msg =
        (if 1000 < now - s.msg_display_start ∧ s.current_msg.isSome = true then none
          else s.current_msg) ∧
      ((1000 < now - s.msg_display_start ∧ s.current_msg.isSome = true) →
        (update s w h now).2 = true) := by
  by_cases h1 : tickDue s now <;>
    by_cases h2 : 1000 < now - s.msg_display_start ∧ s.current_msg.isSome = true <;>
      unfold update <;> simp [h1, h2]

/-- C8: message expiry.  A status message set at time `T` is still present
when the expiry check runs at `T + 999` ms and gone once it runs at
`T + 1001` ms (the update reporting a change); in general the check clears
the message exactly when one is set and the elapsed time since
`msg_display_start` strictly exceeds 1000 ms. -/
theorem c8_message_expiry (s : App) (w h T : Nat) (m : String)
    (hmsg : s.current_msg = some m) (hstart : s.msg_display_start = T) :
    (update s w h (T + 999)).1.current_msg = some m ∧
      ((update s w h (T + 1001)).1.current_msg = none ∧
        (update s w h (T + 1001)).2 = true) ∧
      (∀ now : Nat, (update s w h now).1.current_msg = none ↔ 1000 < now - T) := by
  refine ⟨?_, ⟨?_, ?_⟩, fun now => ?_⟩
  · rw [(update_msg s w h (T + 999)).1, hstart, hmsg,
      if_neg (by intro hcon; omega)]
  · rw [(update_msg s w h (T + 1001)).1, hstart, hmsg,
      if_pos ⟨by omega, rfl⟩]
  · exact (update_msg s w h (T + 1001)).2 (by rw [hstart, hmsg]; exact ⟨by omega, rfl⟩)
  · rw [(update_msg s w h now).1, hstart, hmsg]
    by_cases hc : 1000 < now - T
    · simp [hc]
    · simp [hc]

/-- Witness for C8: a message set at time 5 in a paused state is present when
the check runs at 5 + 999 and gone when it runs at 5 + 1001. -/
theorem c8_message_expiry_witness :
    (update { App.new 5 with current_msg := some "hi" } 0 0 (5 + 999)).1.current_msg =
        some "hi" ∧
      (update { App.new 5 with current_msg := some "hi" } 0 0 (5 + 1001)).1.current_msg =
        none :=
  ⟨(c8_message_expiry { App.new 5 with current_msg := some "hi" } 0 0 5 "hi" rfl rfl).1,
    (c8_message_expiry { App.new 5 with current_msg := some "hi" } 0 0 5 "hi" rfl rfl).2.1.1⟩

/-- Pointer normalization always produces an even column. -/
lemma to_point_coord_even (row column : Nat) : (to_point_coord row column).1 % 2 = 0 := by
  unfold to_point_coord
  split
  · next hodd => omega
  · next heven => omega

/-- A generation advance preserves the even-column property of the live set
(survivors keep their column, births happen at scanned, even columns). -/
lemma nextGeneration_even {w h : Nat} {alive : Finset Coord}
    (ha : ∀ c ∈ alive, c.1 % 2 = 0) :
    ∀ c ∈ nextGeneration w h alive, c.1 % 2 = 0 := by
  intro c hc
  rcases mem_nextGeneration.mp hc with ⟨hmem, -⟩ | hnew
  · exact ha c hmem
  · exact (mem_newPoints.mp hnew).1.1

/-- Every non-quitting `handle_input` dispatch preserves the even-column
property of both `alive_cells` and `save`. -/
lemma handleEvent_even {s s' : App} {e : Event} {now : Nat} {b : Bool}
    (h : handleEvent s e now = some (s', b))
    (ha : ∀ c ∈ s.alive_cells, c.1 % 2 = 0) (hs : ∀ c ∈ s.save, c.1 % 2 = 0) :
    (∀ c ∈ s'.alive_cells, c.1 % 2 = 0) ∧ (∀ c ∈ s'.save, c.1 % 2 = 0) := by
  unfold handleEvent at h
  split at h
  all_goals try exact Option.noConfusion h
  all_goals try split at h
  all_goals try split at h
  all_goals
    simp only [Option.some.injEq, Prod.mk.injEq] at h
  all_goals obtain ⟨h1, -⟩ := h
  all_goals subst h1
  all_goals refine ⟨fun c hc => ?_, fun c hc => ?_⟩
  all_goals
    first
      | exact ha c hc
      | exact hs c hc
      | exact (Finset.not_mem_empty c hc).elim
      | exact ha c (Finset.mem_of_mem_erase hc)
      | (rcases Finset.mem_insert.mp hc with rfl | hmem
         · exact to_point_coord_even _ _
         · exact ha c hmem)

/-- `App::update` preserves the even-column property of both sets. -/
lemma update_even {s : App} (w h now : Nat)
    (ha : ∀ c ∈ s.alive_cells, c.1 % 2 = 0) (hs : ∀ c ∈ s.save, c.1 % 2 = 0) :
    (∀ c ∈ (update s w h now).1.alive_cells, c.1 % 2 = 0) ∧
      (∀ c ∈ (update s w h now).1.save, c.1 % 2 = 0) := by
  refine ⟨fun c hc => ?_, fun c hc => ?_⟩
  · have halive : (update s w h now).1.alive_cells =
        (if tickDue s now then nextGeneration w h s.alive_cells else s.alive_cells) := by
      unfold update
      by_cases h1 : tickDue s now <;> simp only [h1, if_true, if_false] <;> split <;> rfl
    rw [halive] at hc
    by_cases h1 : tickDue s now
    · rw [if_pos h1] at hc
      exact nextGeneration_even ha c hc
    · rw [if_neg h1] at hc
      exact ha c hc
  · rw [update_save] at hc
    exact hs c hc

/-- C10: even-column invariant.  Every state reachable through the program's
own entry points keeps all coordinates of `alive_cells` and of the saved
snapshot at even columns — pointer input is normalized by `to_point_coord`
(an odd click column `c` maps to `c - 1`, which cannot underflow since an
odd column is at least 1), generation advances scan and insert only even
columns, and save/restore/clear copy or empty the sets. -/
theorem c10_reachable_states_have_even_columns (s : App) (hs : Reachable s) :
    ((∀ c ∈ s.alive_cells, c.1 % 2 = 0) ∧ (∀ c ∈ s.save, c.1 % 2 = 0)) ∧
      (∀ row column : Nat, column % 2 = 1 →
        to_point_coord row column = (column - 1, row) ∧ 1 ≤ column) := by
  refine ⟨?_, fun row column hodd =>
    ⟨by unfold to_point_coord; rw [if_pos (by omega)], by omega⟩⟩
  induction hs with
  | init t =>
    exact ⟨fun c hc => (Finset.not_mem_empty c hc).elim,
      fun c hc => (Finset.not_mem_empty c hc).elim⟩
  | input hr heq ih => exact handleEvent_even heq ih.1 ih.2
  | tick w h now hr ih => exact update_even w h now ih.1 ih.2

/-- Witness for C10: the normalization fact applied at the odd click column 5
(row 2), reached through the initial state. -/
theorem c10_reachable_states_have_even_columns_witness :
    to_point_coord 2 5 = (5 - 1, 2) ∧ 1 ≤ 5 :=
  (c10_reachable_states_have_even_columns (App.new 0) (Reachable.init 0)).2 2 5 rfl

end Gol
